import Mathlib

/-!
Verification of the looper/application dispatch core of `haiku-rs`
(`src/app/looper.rs`, `src/app/application.rs`, `haiku-sys/src/lib.rs`).

The dispatch loop `Looper::looper_task` is embedded as a deterministic step
machine over an explicit looper state (endpoint FIFO, local `message_queue`,
`terminating` flag, program location).  Environment nondeterminism (producers
enqueueing at the endpoint at arbitrary times, and `Port::get_count` calls
failing) is supplied as an input stream, so a whole execution is a fold of the
step function over a list of environment inputs and claims become properties
of the resulting state and event trace.

The port transport and the message wire codec are external collaborators
(spec section 1/6): a port is a FIFO list of envelopes, and an envelope is
represented by its type code together with the outcome that
`Message::unflatten` would produce on its bytes.
-/

namespace Haiku

/-- The `haiku_constant!` macro from `haiku-sys/src/lib.rs`:
`((a as u32) << 24) + ((b as u32) << 16) + ((c as u32) << 8) + (d as u32)`,
with `u32` arithmetic made explicit as `% 2^32`. -/
def haiku_constant (a b c d : Nat) : Nat :=
  ((a % 2 ^ 32) * 2 ^ 24 + (b % 2 ^ 32) * 2 ^ 16 + (c % 2 ^ 32) * 2 ^ 8 + d % 2 ^ 32) % 2 ^ 32

/-- Constant `B_MESSAGE_TYPE` from `haiku-sys/src/lib.rs`: `haiku_constant!('M','S','G','G')`. -/
def B_MESSAGE_TYPE : Nat := haiku_constant 77 83 71 71

/-- Modelled from the spec: the reserved quit-confirmation-request control code
(`B_QUIT_REQUESTED`, `'_QRQ'`) is defined in `src/app/mod.rs`, which is not
part of the provided sources; the spec (sections 4.2 and 6) names it as one of
the reserved control codes recognized before a handler. -/
def B_QUIT_REQUESTED : Nat := haiku_constant 95 81 82 81

/-- Modelled from the spec: the reserved immediate-terminate control code
(`QUIT`, `'_QIT'`) is defined in `src/app/mod.rs`, which is not part of the
provided sources; the spec (sections 4.2 and 6) names it as the second
reserved control code, distinct from the quit-confirmation request. -/
def QUIT : Nat := haiku_constant 95 81 73 84

/-- Modelled from the spec: the ready-to-run lifecycle notification code
(`B_READY_TO_RUN`, `'_RTR'`) is defined in `src/app/mod.rs`, which is not part
of the provided sources; the spec (sections 4.3 and 6) names it as a reserved
lifecycle code distinct from the two control codes. -/
def B_READY_TO_RUN : Nat := haiku_constant 95 82 84 82

/-- A message (`Message` is an external opaque envelope per spec section 2):
the 32-bit `what` code drives every dispatch decision in the sources under
`src/`; `payload` stands for the otherwise opaque message contents, so that
distinct messages with equal codes stay distinguishable. -/
structure Message where
  what : Nat
  payload : Nat
deriving DecidableEq

/-- Constructor `Message::new(what)` (external codec): a fresh message with the given
`what` code and empty payload. -/
def Message.new (what : Nat) : Message := ⟨what, 0⟩

/-- Function `Message::type_code()`: the type code under which flattened messages
travel on a port, `B_MESSAGE_TYPE` (used at `looper.rs` line 124). -/
def Message.type_code : Nat := B_MESSAGE_TYPE

/-- A raw envelope as delivered by `Port::try_read`: the transport-level type
code plus the outcome `Message::unflatten` would give on its byte buffer
(`some m` when the bytes decode, `none` when they are corrupt).  The codec
itself is an external collaborator (spec section 6). -/
structure Envelope where
  type_code : Nat
  body : Option Message
deriving DecidableEq

/-- Function `Looper::read_message_from_port` (`looper.rs` lines 121-130): the envelope
must carry `Message::type_code()`, and then its buffer must unflatten; both
failure modes surface as errors to the dispatch loop, modelled as `none`. -/
def read_message_from_port (e : Envelope) : Option Message :=
  if e.type_code = Message.type_code then e.body else none

/-- Program locations of `Looper::looper_task` (`looper.rs` lines 47-119):
`outerTop` is the blocking receive at line 53, `preDrain` the
`get_count().unwrap()` at line 62, `drain n` the fetch loop at lines 63-72
with `n` iterations remaining, `innerTop` the inner dispatch loop at lines
77-112, `terminated` the exit at lines 113-116, and `panicked` the aborted
thread after a failed `unwrap`. -/
inductive Loc
  | outerTop
  | preDrain
  | drain (n : Nat)
  | innerTop
  | panicked
  | terminated
deriving DecidableEq

/-- The state owned by a running `Looper` (`looper.rs` lines 20-28) together
with its endpoint: `port` is the FIFO of envelopes pending at the endpoint,
`queue` the local `message_queue`, `terminating` the termination flag, and
`loc` the position inside `looper_task`. -/
structure St where
  port : List Envelope
  queue : List Message
  terminating : Bool
  loc : Loc
deriving DecidableEq

/-- Observable events of one machine step.  `read` records a decoded message
being appended to the local queue, `discarded` a malformed envelope being
reported and dropped, `popped` a message taken from the front of the local
queue by the inner loop, `delivered` the handler invocation
`self.state.message_received(..)` at line 95, and `quit` the terminate code
setting the termination flag at line 88. -/
inductive Ev
  | read (m : Message)
  | discarded (e : Envelope)
  | popped (m : Message)
  | delivered (m : Message)
  | quit
deriving DecidableEq

/-- Environment inputs: `arrive e` is a producer completing a send of
envelope `e` to the endpoint (ports are multi-producer, spec section 5);
`run ok` lets the looper thread take its next internal step, where `ok`
tells whether a `Port::get_count` call made during that step succeeds. -/
inductive EnvIn
  | arrive (e : Envelope)
  | run (countOk : Bool)
deriving DecidableEq

/-- Lines 104-111 of `looper.rs`, the depth query ending one inner-loop
iteration, for an arbitrary `get_count` outcome: on `Ok(count)` a positive
count stops the inner dispatch (`dispatch_next_message = false`, so the next
location is the outer top), on `Err` the error is only printed and the inner
loop keeps dispatching. -/
def innerCountCheck (s : St) (count? : Option Nat) : St :=
  match count? with
  | some count => if count > 0 then { s with loc := .outerTop } else { s with loc := .innerTop }
  | none => { s with loc := .innerTop }

/-- Line 62 of `looper.rs`, `let message_count = self.port.get_count().unwrap()`,
for an arbitrary `get_count` outcome: on `Ok(n)` the drain loop runs `n`
iterations; on `Err` the `unwrap` panics the looper thread. -/
def drainCount (s : St) (count? : Option Nat) : St :=
  match count? with
  | some n => { s with loc := .drain n }
  | none => { s with loc := .panicked }

/-- One internal step of `Looper::looper_task`, at the granularity of one
source-level action: the blocking receive (lines 53-59), the drain count
(line 62), one drain iteration (lines 63-72), or one inner-loop iteration
(lines 77-112) including its closing depth query. -/
def stepRun (s : St) (countOk : Bool) : St × List Ev :=
  match s.loc with
  | .outerTop =>
    match s.port with
    | [] => (s, [])
    | e :: rest =>
      match read_message_from_port e with
      | some m => ({ s with port := rest, queue := s.queue ++ [m], loc := .preDrain }, [.read m])
      | none => ({ s with port := rest }, [.discarded e])
  | .preDrain => (drainCount s (if countOk then some s.port.length else none), [])
  | .drain 0 => ({ s with loc := .innerTop }, [])
  | .drain (n + 1) =>
    match s.port with
    | [] => ({ s with loc := .innerTop }, [])
    | e :: rest =>
      match read_message_from_port e with
      | some m => ({ s with port := rest, queue := s.queue ++ [m], loc := .drain n }, [.read m])
      | none => ({ s with port := rest, loc := .innerTop }, [.discarded e])
  | .innerTop =>
    if s.terminating then ({ s with loc := .terminated }, [])
    else
      match s.queue with
      | [] => ({ s with loc := .outerTop }, [])
      | m :: rest =>
        if m.what = B_QUIT_REQUESTED then
          (innerCountCheck { s with queue := rest } (if countOk then some s.port.length else none),
           [.popped m])
        else if m.what = QUIT then
          ({ s with queue := rest, terminating := true, loc := .terminated }, [.popped m, .quit])
        else
          (innerCountCheck { s with queue := rest } (if countOk then some s.port.length else none),
           [.popped m, .delivered m])
  | .panicked => (s, [])
  | .terminated => (s, [])

/-- One step of the combined looper/environment system: an arrival appends to
the endpoint FIFO (producers never touch the looper's locals), a `run` input
advances the looper by `stepRun`. -/
def stepEv (s : St) : EnvIn → St × List Ev
  | .arrive e => ({ s with port := s.port ++ [e] }, [])
  | .run countOk => stepRun s countOk

/-- Run the machine over a whole input stream, accumulating the event trace. -/
def runMachine (s : St) : List EnvIn → St × List Ev
  | [] => (s, [])
  | i :: rest =>
    ((runMachine (stepEv s i).1 rest).1, (stepEv s i).2 ++ (runMachine (stepEv s i).1 rest).2)

/-- Final state of a run. -/
def finalOf (s : St) (sched : List EnvIn) : St := (runMachine s sched).1

/-- Event trace of a run. -/
def traceOf (s : St) (sched : List EnvIn) : List Ev := (runMachine s sched).2

/-- Envelopes the environment delivers to the endpoint, in completion order. -/
def arrivalsOf (sched : List EnvIn) : List Envelope :=
  sched.filterMap fun i => match i with | .arrive e => some e | _ => none

/-- Messages appended to the local queue, in trace order. -/
def readOf (tr : List Ev) : List Message :=
  tr.filterMap fun ev => match ev with | .read m => some m | _ => none

/-- Messages the inner loop took from the front of the local queue. -/
def poppedOf (tr : List Ev) : List Message :=
  tr.filterMap fun ev => match ev with | .popped m => some m | _ => none

/-- Messages actually handed to the looper's handler. -/
def deliveredOf (tr : List Ev) : List Message :=
  tr.filterMap fun ev => match ev with | .delivered m => some m | _ => none

/-- The decodable messages of a list of envelopes, in order. -/
def decodedEnvs (l : List Envelope) : List Message :=
  l.filterMap read_message_from_port

/-- The two reserved codes intercepted by the inner loop before the handler
(`looper.rs` lines 86-97). -/
def isControl (m : Message) : Bool :=
  m.what == B_QUIT_REQUESTED || m.what == QUIT

/-- The looper state `Application::new` hands to `run()`
(`application.rs` lines 22-49): a freshly created (hence empty) port, the
local queue pre-seeded with the single `B_READY_TO_RUN` notification
(line 43), termination flag clear, about to enter `looper_task`. -/
def freshApp : St :=
  { port := [], queue := [Message.new B_READY_TO_RUN], terminating := false, loc := .outerTop }

/-- The error taxonomy of `support::HaikuError`.  Modelled from the spec: the
`support` module is not part of the provided sources; spec section 7 gives
the taxonomy AddressError / TransportError / DecodeError. -/
inductive HaikuError
  | addressError
  | transportError
  | decodeError
deriving DecidableEq

namespace Looper

/-- Method `Looper::run` (`looper.rs` lines 39-45): spawn the dispatch thread — its
behaviour is `runMachine` on the moved-in looper state, driven by whatever
environment the process provides — and return `Ok(())` to the caller at once. -/
def run (s : St) (sched : List EnvIn) : Except HaikuError Unit × (St × List Ev) :=
  (Except.ok (), runMachine s sched)

end Looper

namespace Application

/-- Method `Application::run` (`application.rs` lines 70-74): execute
`looper_task` on the calling thread and return `Ok(())` afterwards.  The call
returns only when the dispatch loop exits, so over a finite environment
stream the result is `none` while the loop is still live (or panicked) and
`some (Ok ())` once the loop has terminated. -/
def run (s : St) (sched : List EnvIn) : Option (Except HaikuError Unit) :=
  if (runMachine s sched).1.loc = .terminated then some (Except.ok ()) else none

end Application

/-- The user-facing hook bundle `ApplicationHooks` (`application.rs` lines
87-99).  Hooks transform the exclusively guarded application state; the
`&Messenger` argument is an opaque address and is dropped from the model.
`quit_requested` defaults to returning `true` and `ready_to_run` to doing
nothing, as in the source; `message_received` is required. -/
structure AppHooks (A : Type) where
  quit_requested : A → A × Bool := fun a => (a, true)
  ready_to_run : A → A := fun a => a
  message_received : A → Message → A

/-- Events of one application-handler dispatch: acquiring and releasing the
`Mutex` guard on the shared state, and the hook invocations made in between. -/
inductive GuardEv
  | acquired
  | hookReadyToRun
  | hookMessageReceived
  | released
deriving DecidableEq

namespace ApplicationLooperState

/-- The `impl Handler for ApplicationLooperState` method `message_received`
(`application.rs` lines 106-113): `context.application_state.lock().unwrap()`
acquires the exclusive guard; under it a `B_READY_TO_RUN` message invokes the
`ready_to_run` hook and any other code the `message_received` hook; the guard
drops when the binding leaves scope, after the hook returns. -/
def message_received {A : Type} (hooks : AppHooks A) (st : A) (msg : Message) :
    A × List GuardEv :=
  if msg.what = B_READY_TO_RUN then
    (hooks.ready_to_run st, [.acquired, .hookReadyToRun, .released])
  else
    (hooks.message_received st msg, [.acquired, .hookMessageReceived, .released])

end ApplicationLooperState

/-- Guard discipline checker: scanning a guard-event trace at lock depth `d`,
every hook invocation must happen at positive depth (the guard is held), and
the trace must end with the guard fully released. -/
def hooksUnderGuard : List GuardEv → Nat → Bool
  | [], 0 => true
  | [], _ + 1 => false
  | .acquired :: rest, d => hooksUnderGuard rest (d + 1)
  | .released :: rest, d + 1 => hooksUnderGuard rest d
  | .released :: _, 0 => false
  | .hookReadyToRun :: rest, d + 1 => hooksUnderGuard rest (d + 1)
  | .hookMessageReceived :: rest, d + 1 => hooksUnderGuard rest (d + 1)
  | .hookReadyToRun :: _, 0 => false
  | .hookMessageReceived :: _, 0 => false

/-- The looper state after `k` internal steps in which every `get_count`
call succeeds and no new envelope arrives. -/
def runN (s : St) (k : Nat) : St := finalOf s (List.replicate k (.run true))

section Lemmas

@[simp] lemma runMachine_nil (s : St) : runMachine s [] = (s, []) := rfl

lemma runMachine_cons (s : St) (i : EnvIn) (rest : List EnvIn) :
    runMachine s (i :: rest) =
      ((runMachine (stepEv s i).1 rest).1, (stepEv s i).2 ++ (runMachine (stepEv s i).1 rest).2) :=
  rfl

@[simp] lemma finalOf_nil (s : St) : finalOf s [] = s := rfl

@[simp] lemma traceOf_nil (s : St) : traceOf s [] = [] := rfl

@[simp] lemma finalOf_cons (s : St) (i : EnvIn) (rest : List EnvIn) :
    finalOf s (i :: rest) = finalOf (stepEv s i).1 rest := rfl

@[simp] lemma traceOf_cons (s : St) (i : EnvIn) (rest : List EnvIn) :
    traceOf s (i :: rest) = (stepEv s i).2 ++ traceOf (stepEv s i).1 rest := rfl

@[simp] lemma arrivalsOf_nil : arrivalsOf [] = [] := rfl

@[simp] lemma arrivalsOf_cons_arrive (e : Envelope) (rest : List EnvIn) :
    arrivalsOf (.arrive e :: rest) = e :: arrivalsOf rest := rfl

@[simp] lemma arrivalsOf_cons_run (c : Bool) (rest : List EnvIn) :
    arrivalsOf (.run c :: rest) = arrivalsOf rest := rfl

@[simp] lemma readOf_nil : readOf [] = [] := rfl

@[simp] lemma readOf_append (a b : List Ev) : readOf (a ++ b) = readOf a ++ readOf b :=
  List.filterMap_append a b _

@[simp] lemma poppedOf_nil : poppedOf [] = [] := rfl

@[simp] lemma poppedOf_append (a b : List Ev) : poppedOf (a ++ b) = poppedOf a ++ poppedOf b :=
  List.filterMap_append a b _

@[simp] lemma deliveredOf_nil : deliveredOf [] = [] := rfl

@[simp] lemma deliveredOf_append (a b : List Ev) :
    deliveredOf (a ++ b) = deliveredOf a ++ deliveredOf b :=
  List.filterMap_append a b _

@[simp] lemma decodedEnvs_nil : decodedEnvs [] = [] := rfl

@[simp] lemma decodedEnvs_cons (e : Envelope) (l : List Envelope) :
    decodedEnvs (e :: l) =
      match read_message_from_port e with
      | some m => m :: decodedEnvs l
      | none => decodedEnvs l := by
  simp only [decodedEnvs, List.filterMap_cons]
  cases read_message_from_port e <;> rfl

@[simp] lemma decodedEnvs_append (a b : List Envelope) :
    decodedEnvs (a ++ b) = decodedEnvs a ++ decodedEnvs b :=
  List.filterMap_append a b _

/-- The three reserved codes are pairwise distinct four-character constants. -/
@[simp] lemma quit_ne_quit_requested : ¬(QUIT = B_QUIT_REQUESTED) := by decide

@[simp] lemma quit_requested_ne_quit : ¬(B_QUIT_REQUESTED = QUIT) := by decide

@[simp] lemma ready_ne_quit_requested : ¬(B_READY_TO_RUN = B_QUIT_REQUESTED) := by decide

@[simp] lemma ready_ne_quit : ¬(B_READY_TO_RUN = QUIT) := by decide

lemma innerCountCheck_port (s : St) (c? : Option Nat) : (innerCountCheck s c?).port = s.port := by
  cases c? with
  | none => rfl
  | some n => simp only [innerCountCheck]; split <;> rfl

lemma innerCountCheck_queue (s : St) (c? : Option Nat) :
    (innerCountCheck s c?).queue = s.queue := by
  cases c? with
  | none => rfl
  | some n => simp only [innerCountCheck]; split <;> rfl

lemma innerCountCheck_terminating (s : St) (c? : Option Nat) :
    (innerCountCheck s c?).terminating = s.terminating := by
  cases c? with
  | none => rfl
  | some n => simp only [innerCountCheck]; split <;> rfl

/-- Once `looper_task` has exited (or the thread has panicked), no further
internal step produces any event or changes anything but the endpoint FIFO. -/
lemma terminated_absorb :
    ∀ (sched : List EnvIn) (s : St), s.loc = .terminated →
      traceOf s sched = [] ∧ (finalOf s sched).loc = .terminated := by
  intro sched
  induction sched with
  | nil => intro s h; exact ⟨rfl, h⟩
  | cons i rest ih =>
    intro s h
    cases i with
    | arrive e =>
      have h' : (stepEv s (.arrive e)).1.loc = .terminated := h
      have h2 := ih _ h'
      rw [traceOf_cons, finalOf_cons]
      exact ⟨by rw [h2.1]; rfl, h2.2⟩
    | run c =>
      have hs : stepEv s (.run c) = (s, []) := by
        simp [stepEv, stepRun, h]
      rw [traceOf_cons, finalOf_cons, hs]
      have h2 := ih s h
      simp [h2.1, h2.2]

/-- A step that emits the `quit` event is exactly a pop of a `QUIT`-coded
message, emits nothing after `quit`, and leaves the machine terminated. -/
lemma quit_step_char (s : St) (i : EnvIn) (h : .quit ∈ (stepEv s i).2) :
    (∃ m, (stepEv s i).2 = [.popped m, .quit]) ∧ (stepEv s i).1.loc = .terminated := by
  cases i with
  | arrive e => simp [stepEv] at h
  | run c =>
    simp only [stepEv] at h ⊢
    cases hl : s.loc with
    | outerTop =>
      cases hp : s.port with
      | nil => simp [stepRun, hl, hp] at h
      | cons e rest =>
        cases hd : read_message_from_port e <;> simp [stepRun, hl, hp, hd] at h
    | preDrain =>
      by_cases hc : c = true <;> simp [stepRun, hl, hc, drainCount] at h
    | drain n =>
      cases n with
      | zero => simp [stepRun, hl] at h
      | succ k =>
        cases hp : s.port with
        | nil => simp [stepRun, hl, hp] at h
        | cons e rest =>
          cases hd : read_message_from_port e <;> simp [stepRun, hl, hp, hd] at h
    | innerTop =>
      by_cases ht : s.terminating
      · simp [stepRun, hl, ht] at h
      · cases hq : s.queue with
        | nil => simp [stepRun, hl, ht, hq] at h
        | cons m rest =>
          by_cases h1 : m.what = B_QUIT_REQUESTED
          · simp [stepRun, hl, ht, hq, h1] at h
          · by_cases h2 : m.what = QUIT
            · refine ⟨⟨m, ?_⟩, ?_⟩ <;> simp [stepRun, hl, ht, hq, h1, h2]
            · simp [stepRun, hl, ht, hq, h1, h2] at h
    | panicked => simp [stepRun, hl] at h
    | terminated => simp [stepRun, hl] at h

/-- Per step, the messages reaching the handler are exactly the popped
messages whose code is not one of the two reserved control codes. -/
lemma step_delivered_filter (s : St) (i : EnvIn) :
    deliveredOf (stepEv s i).2 = (poppedOf (stepEv s i).2).filter (fun m => !isControl m) := by
  cases i with
  | arrive e => rfl
  | run c =>
    simp only [stepEv]
    cases hl : s.loc with
    | outerTop =>
      cases hp : s.port with
      | nil => simp [stepRun, hl, hp, deliveredOf, poppedOf]
      | cons e rest =>
        cases hd : read_message_from_port e <;>
          simp [stepRun, hl, hp, hd, deliveredOf, poppedOf]
    | preDrain =>
      by_cases hc : c = true <;> simp [stepRun, hl, hc, drainCount, deliveredOf, poppedOf]
    | drain n =>
      cases n with
      | zero => simp [stepRun, hl, deliveredOf, poppedOf]
      | succ k =>
        cases hp : s.port with
        | nil => simp [stepRun, hl, hp, deliveredOf, poppedOf]
        | cons e rest =>
          cases hd : read_message_from_port e <;>
            simp [stepRun, hl, hp, hd, deliveredOf, poppedOf]
    | innerTop =>
      by_cases ht : s.terminating
      · simp [stepRun, hl, ht, deliveredOf, poppedOf]
      · cases hq : s.queue with
        | nil => simp [stepRun, hl, ht, hq, deliveredOf, poppedOf]
        | cons m rest =>
          by_cases h1 : m.what = B_QUIT_REQUESTED
          · simp [stepRun, hl, ht, hq, h1, deliveredOf, poppedOf, isControl]
          · by_cases h2 : m.what = QUIT
            · simp [stepRun, hl, ht, hq, h1, h2, deliveredOf, poppedOf, isControl]
            · simp [stepRun, hl, ht, hq, h1, h2, deliveredOf, poppedOf, isControl]
    | panicked => simp [stepRun, hl, deliveredOf, poppedOf]
    | terminated => simp [stepRun, hl, deliveredOf, poppedOf]

/-- Over any run, handler deliveries are exactly the popped messages that are
not reserved control codes, in order. -/
lemma delivered_eq_filter_popped :
    ∀ (sched : List EnvIn) (s : St),
      deliveredOf (traceOf s sched) =
        (poppedOf (traceOf s sched)).filter (fun m => !isControl m) := by
  intro sched
  induction sched with
  | nil => intro s; rfl
  | cons i rest ih =>
    intro s
    rw [traceOf_cons, deliveredOf_append, poppedOf_append, List.filter_append,
      step_delivered_filter, ih]

@[simp] lemma readOf_cons_read (m : Message) (tr : List Ev) :
    readOf (.read m :: tr) = m :: readOf tr := rfl

@[simp] lemma readOf_cons_discarded (e : Envelope) (tr : List Ev) :
    readOf (.discarded e :: tr) = readOf tr := rfl

@[simp] lemma readOf_cons_popped (m : Message) (tr : List Ev) :
    readOf (.popped m :: tr) = readOf tr := rfl

@[simp] lemma readOf_cons_delivered (m : Message) (tr : List Ev) :
    readOf (.delivered m :: tr) = readOf tr := rfl

@[simp] lemma readOf_cons_quit (tr : List Ev) : readOf (.quit :: tr) = readOf tr := rfl

@[simp] lemma poppedOf_cons_read (m : Message) (tr : List Ev) :
    poppedOf (.read m :: tr) = poppedOf tr := rfl

@[simp] lemma poppedOf_cons_discarded (e : Envelope) (tr : List Ev) :
    poppedOf (.discarded e :: tr) = poppedOf tr := rfl

@[simp] lemma poppedOf_cons_popped (m : Message) (tr : List Ev) :
    poppedOf (.popped m :: tr) = m :: poppedOf tr := rfl

@[simp] lemma poppedOf_cons_delivered (m : Message) (tr : List Ev) :
    poppedOf (.delivered m :: tr) = poppedOf tr := rfl

@[simp] lemma poppedOf_cons_quit (tr : List Ev) : poppedOf (.quit :: tr) = poppedOf tr := rfl

@[simp] lemma deliveredOf_cons_read (m : Message) (tr : List Ev) :
    deliveredOf (.read m :: tr) = deliveredOf tr := rfl

@[simp] lemma deliveredOf_cons_discarded (e : Envelope) (tr : List Ev) :
    deliveredOf (.discarded e :: tr) = deliveredOf tr := rfl

@[simp] lemma deliveredOf_cons_popped (m : Message) (tr : List Ev) :
    deliveredOf (.popped m :: tr) = deliveredOf tr := rfl

@[simp] lemma deliveredOf_cons_delivered (m : Message) (tr : List Ev) :
    deliveredOf (.delivered m :: tr) = m :: deliveredOf tr := rfl

@[simp] lemma deliveredOf_cons_quit (tr : List Ev) :
    deliveredOf (.quit :: tr) = deliveredOf tr := rfl

/-- Central transport/queue invariant.  Over any run: some prefix (`take k`)
of the total envelope stream `s.port ++ arrivalsOf sched` has been consumed
from the endpoint, in order; the messages appended to the local queue are
exactly the decodable ones of that prefix, in order; and the local queue obeys
the FIFO law relating pops, the initial queue, and appended reads. -/
lemma runInv :
    ∀ (sched : List EnvIn) (s : St),
      ∃ k, k ≤ (s.port ++ arrivalsOf sched).length ∧
        (finalOf s sched).port = (s.port ++ arrivalsOf sched).drop k ∧
        readOf (traceOf s sched) = decodedEnvs ((s.port ++ arrivalsOf sched).take k) ∧
        poppedOf (traceOf s sched) ++ (finalOf s sched).queue =
          s.queue ++ readOf (traceOf s sched) := by
  intro sched
  induction sched with
  | nil =>
    intro s
    exact ⟨0, by simp⟩
  | cons i rest ih =>
    intro s
    cases i with
    | arrive e =>
      have hstep : stepEv s (.arrive e) = ({ s with port := s.port ++ [e] }, []) := rfl
      rw [traceOf_cons, finalOf_cons, hstep]
      obtain ⟨k, hk, hport, hread, hqueue⟩ := ih { s with port := s.port ++ [e] }
      refine ⟨k, ?_, ?_, ?_, ?_⟩
      · simpa [List.append_assoc] using hk
      · simpa [List.append_assoc] using hport
      · simpa [List.append_assoc] using hread
      · simpa [List.append_assoc] using hqueue
    | run c =>
      rw [traceOf_cons, finalOf_cons]
      cases hl : s.loc with
      | outerTop =>
        cases hp : s.port with
        | nil =>
          have hstep : stepEv s (.run c) = (s, []) := by simp [stepEv, stepRun, hl, hp]
          rw [hstep]
          obtain ⟨k, hk, hport, hread, hqueue⟩ := ih s
          exact ⟨k, by simpa [hp] using hk, by simpa [hp] using hport,
            by simpa [hp] using hread, by simpa using hqueue⟩
        | cons e r =>
          cases hd : read_message_from_port e with
          | some m =>
            have hstep : stepEv s (.run c) =
                ({ s with port := r, queue := s.queue ++ [m], loc := .preDrain }, [.read m]) := by
              simp [stepEv, stepRun, hl, hp, hd]
            rw [hstep]
            obtain ⟨k, hk, hport, hread, hqueue⟩ :=
              ih { s with port := r, queue := s.queue ++ [m], loc := .preDrain }
            refine ⟨k + 1, ?_, ?_, ?_, ?_⟩
            · simpa using Nat.succ_le_succ hk
            · simpa using hport
            · simp only [List.cons_append, List.take_succ_cons, decodedEnvs_cons, hd,
                readOf_append, readOf_cons_read, readOf_nil]
              simpa using hread
            · simpa [List.append_assoc] using hqueue
          | none =>
            have hstep : stepEv s (.run c) = ({ s with port := r }, [.discarded e]) := by
              simp [stepEv, stepRun, hl, hp, hd]
            rw [hstep]
            obtain ⟨k, hk, hport, hread, hqueue⟩ := ih { s with port := r }
            refine ⟨k + 1, ?_, ?_, ?_, ?_⟩
            · simpa using Nat.succ_le_succ hk
            · simpa using hport
            · simp only [List.cons_append, List.take_succ_cons, decodedEnvs_cons, hd,
                readOf_append, readOf_cons_discarded, readOf_nil]
              simpa using hread
            · simpa using hqueue
      | preDrain =>
        have hstep : stepEv s (.run c) =
            (drainCount s (if c then some s.port.length else none), []) := by
          simp [stepEv, stepRun, hl]
        rw [hstep]
        have hsame : ∃ l, drainCount s (if c then some s.port.length else none) =
            { s with loc := l } := by
          by_cases hc : c = true
          · exact ⟨.drain s.port.length, by simp [drainCount, hc]⟩
          · exact ⟨.panicked, by simp [drainCount, hc]⟩
        obtain ⟨l, hll⟩ := hsame
        rw [hll]
        obtain ⟨k, hk, hport, hread, hqueue⟩ := ih { s with loc := l }
        exact ⟨k, by simpa using hk, by simpa using hport, by simpa using hread,
          by simpa using hqueue⟩
      | drain n =>
        cases n with
        | zero =>
          have hstep : stepEv s (.run c) = ({ s with loc := .innerTop }, []) := by
            simp [stepEv, stepRun, hl]
          rw [hstep]
          obtain ⟨k, hk, hport, hread, hqueue⟩ := ih { s with loc := .innerTop }
          exact ⟨k, by simpa using hk, by simpa using hport, by simpa using hread,
            by simpa using hqueue⟩
        | succ j =>
          cases hp : s.port with
          | nil =>
            have hstep : stepEv s (.run c) = ({ s with loc := .innerTop }, []) := by
              simp [stepEv, stepRun, hl, hp]
            rw [hstep]
            obtain ⟨k, hk, hport, hread, hqueue⟩ := ih { s with loc := .innerTop }
            exact ⟨k, by simpa [hp] using hk, by simpa [hp] using hport,
              by simpa [hp] using hread, by simpa using hqueue⟩
          | cons e r =>
            cases hd : read_message_from_port e with
            | some m =>
              have hstep : stepEv s (.run c) =
                  ({ s with port := r, queue := s.queue ++ [m], loc := .drain j },
                    [.read m]) := by
                simp [stepEv, stepRun, hl, hp, hd]
              rw [hstep]
              obtain ⟨k, hk, hport, hread, hqueue⟩ :=
                ih { s with port := r, queue := s.queue ++ [m], loc := .drain j }
              refine ⟨k + 1, ?_, ?_, ?_, ?_⟩
              · simpa using Nat.succ_le_succ hk
              · simpa using hport
              · simp only [List.cons_append, List.take_succ_cons, decodedEnvs_cons, hd,
                  readOf_append, readOf_cons_read, readOf_nil]
                simpa using hread
              · simpa [List.append_assoc] using hqueue
            | none =>
              have hstep : stepEv s (.run c) =
                  ({ s with port := r, loc := .innerTop }, [.discarded e]) := by
                simp [stepEv, stepRun, hl, hp, hd]
              rw [hstep]
              obtain ⟨k, hk, hport, hread, hqueue⟩ := ih { s with port := r, loc := .innerTop }
              refine ⟨k + 1, ?_, ?_, ?_, ?_⟩
              · simpa using Nat.succ_le_succ hk
              · simpa using hport
              · simp only [List.cons_append, List.take_succ_cons, decodedEnvs_cons, hd,
                  readOf_append, readOf_cons_discarded, readOf_nil]
                simpa using hread
              · simpa using hqueue
      | innerTop =>
        by_cases ht : s.terminating
        · have hstep : stepEv s (.run c) = ({ s with loc := .terminated }, []) := by
            simp [stepEv, stepRun, hl, ht]
          rw [hstep]
          obtain ⟨k, hk, hport, hread, hqueue⟩ := ih { s with loc := .terminated }
          exact ⟨k, by simpa using hk, by simpa using hport, by simpa using hread,
            by simpa using hqueue⟩
        · cases hq : s.queue with
          | nil =>
            have hstep : stepEv s (.run c) = ({ s with loc := .outerTop }, []) := by
              simp [stepEv, stepRun, hl, ht, hq]
            rw [hstep]
            obtain ⟨k, hk, hport, hread, hqueue⟩ := ih { s with loc := .outerTop }
            exact ⟨k, by simpa using hk, by simpa using hport, by simpa using hread,
              by simpa [hq] using hqueue⟩
          | cons m q' =>
            have base :
                ∀ (S' : St) (EV : List Ev), stepEv s (.run c) = (S', EV) →
                  S'.port = s.port → S'.queue = q' →
                  readOf EV = [] → poppedOf EV = [m] →
                  ∃ k, k ≤ (s.port ++ arrivalsOf rest).length ∧
                    (finalOf S' rest).port = (s.port ++ arrivalsOf rest).drop k ∧
                    readOf (EV ++ traceOf S' rest) =
                      decodedEnvs ((s.port ++ arrivalsOf rest).take k) ∧
                    poppedOf (EV ++ traceOf S' rest) ++ (finalOf S' rest).queue =
                      (m :: q') ++ readOf (EV ++ traceOf S' rest) := by
              intro S' EV hstep hport' hqueue' hrev hpev
              obtain ⟨k, hk, hport, hread, hqueue⟩ := ih S'
              rw [hport'] at hport hread hk
              rw [hqueue'] at hqueue
              refine ⟨k, hk, hport, ?_, ?_⟩
              · rw [readOf_append, hrev, List.nil_append]; exact hread
              · rw [readOf_append, poppedOf_append, hrev, hpev, List.nil_append]
                simpa using hqueue
            by_cases h1 : m.what = B_QUIT_REQUESTED
            · have hstep : stepEv s (.run c) =
                  (innerCountCheck { s with queue := q' }
                    (if c then some s.port.length else none), [.popped m]) := by
                simp [stepEv, stepRun, hl, ht, hq, h1]
              rw [hstep]
              exact base _ _ hstep (by rw [innerCountCheck_port])
                (by rw [innerCountCheck_queue]) rfl rfl
            · by_cases h2 : m.what = QUIT
              · have hstep : stepEv s (.run c) =
                    ({ s with queue := q', terminating := true, loc := .terminated },
                      [.popped m, .quit]) := by
                  simp [stepEv, stepRun, hl, ht, hq, h1, h2]
                rw [hstep]
                exact base _ _ hstep rfl rfl rfl rfl
              · have hstep : stepEv s (.run c) =
                    (innerCountCheck { s with queue := q' }
                      (if c then some s.port.length else none),
                      [.popped m, .delivered m]) := by
                  simp [stepEv, stepRun, hl, ht, hq, h1, h2]
                rw [hstep]
                exact base _ _ hstep (by rw [innerCountCheck_port])
                  (by rw [innerCountCheck_queue]) rfl rfl
      | panicked =>
        have hstep : stepEv s (.run c) = (s, []) := by simp [stepEv, stepRun, hl]
        rw [hstep]
        obtain ⟨k, hk, hport, hread, hqueue⟩ := ih s
        exact ⟨k, by simpa using hk, by simpa using hport, by simpa using hread,
          by simpa using hqueue⟩
      | terminated =>
        have hstep : stepEv s (.run c) = (s, []) := by simp [stepEv, stepRun, hl]
        rw [hstep]
        obtain ⟨k, hk, hport, hread, hqueue⟩ := ih s
        exact ⟨k, by simpa using hk, by simpa using hport, by simpa using hread,
          by simpa using hqueue⟩

/-- The inner loop pops in order: the dispatched (popped) sequence of any run
is a prefix of the initial local queue followed by the decodable messages of
the endpoint's total delivery stream. -/
lemma popped_follows_stream (s : St) (sched : List EnvIn) :
    poppedOf (traceOf s sched) <+: s.queue ++ decodedEnvs (s.port ++ arrivalsOf sched) := by
  obtain ⟨k, hk, hport, hread, hqueue⟩ := runInv sched s
  have h1 : poppedOf (traceOf s sched) <+: s.queue ++ readOf (traceOf s sched) :=
    ⟨(finalOf s sched).queue, hqueue⟩
  have h2 : readOf (traceOf s sched) <+: decodedEnvs (s.port ++ arrivalsOf sched) := by
    rw [hread]
    refine ⟨decodedEnvs ((s.port ++ arrivalsOf sched).drop k), ?_⟩
    rw [← decodedEnvs_append, List.take_append_drop]
  obtain ⟨t, ht⟩ := h2
  exact h1.trans ⟨t, by rw [← ht, List.append_assoc]⟩

end Lemmas

/-- C3: for every looper and every sequence of messages delivered by its
endpoint, dispatch preserves the endpoint's delivery order — every decoded
message is appended at the back of the local queue and dispatch always pops
the front, so the dispatched sequence is a prefix of the initial local queue
followed by the decodable arrivals in endpoint order (never reordered or
prioritized, across all outer-loop passes), and the handler receives exactly
the dispatched messages that are not reserved control codes, in that order. -/
theorem c3_fifo_dispatch_order (s : St) (sched : List EnvIn) :
    deliveredOf (traceOf s sched) =
      (poppedOf (traceOf s sched)).filter (fun m => !isControl m) ∧
    poppedOf (traceOf s sched) <+: s.queue ++ decodedEnvs (s.port ++ arrivalsOf sched) :=
  ⟨delivered_eq_filter_popped sched s, popped_follows_stream s sched⟩

/-- C1: once a terminate (`QUIT`) control message is processed, the `quit`
event is the last event of the whole trace — no queued or still-pending
message is ever popped or delivered to the handler afterwards — and the
dispatch loop has exited (`terminated`). -/
theorem c1_termination_finality (s : St) (sched : List EnvIn)
    (h : Ev.quit ∈ traceOf s sched) :
    (∃ t1, traceOf s sched = t1 ++ [Ev.quit] ∧ Ev.quit ∉ t1) ∧
    (finalOf s sched).loc = .terminated := by
  induction sched generalizing s with
  | nil => simp at h
  | cons i rest ih =>
    rw [traceOf_cons] at h ⊢
    rw [finalOf_cons]
    rcases List.mem_append.1 h with hev | htr
    · obtain ⟨⟨m, hm⟩, hloc⟩ := quit_step_char s i hev
      have habs := terminated_absorb rest _ hloc
      rw [hm, habs.1]
      exact ⟨⟨[Ev.popped m], by simp, by simp⟩, habs.2⟩
    · by_cases hev : Ev.quit ∈ (stepEv s i).2
      · obtain ⟨_, hloc'⟩ := quit_step_char s i hev
        have habs := terminated_absorb rest _ hloc'
        rw [habs.1] at htr
        simp at htr
      · obtain ⟨⟨t1, ht1, hn1⟩, hloc⟩ := ih _ htr
        refine ⟨⟨(stepEv s i).2 ++ t1, by rw [ht1, List.append_assoc], ?_⟩, hloc⟩
        intro hmem
        rcases List.mem_append.1 hmem with h1 | h2
        · exact hev h1
        · exact hn1 h2

/-- Witness for C1: a looper whose endpoint holds one well-formed `QUIT`
message processes it and stops, the `quit` event closing the trace. -/
theorem c1_termination_finality_witness :
    (∃ t1,
        traceOf ⟨[⟨Message.type_code, some (Message.new QUIT)⟩], [], false, .outerTop⟩
            [.run true, .run true, .run true, .run true] =
          t1 ++ [Ev.quit] ∧ Ev.quit ∉ t1) ∧
    (finalOf ⟨[⟨Message.type_code, some (Message.new QUIT)⟩], [], false, .outerTop⟩
        [.run true, .run true, .run true, .run true]).loc = .terminated :=
  c1_termination_finality _ _ (by decide)

/-- C9: `Looper::run` returns `Ok(())` on every call, and `Application::run`
returns `Ok(())` whenever the application's dispatch loop terminates — the
error branch of both `Result`s is unreachable. -/
theorem c9_run_results_always_ok (s : St) (sched : List EnvIn) :
    (Looper.run s sched).1 = Except.ok () ∧
    (Application.run s sched = none ∨ Application.run s sched = some (Except.ok ())) := by
  refine ⟨rfl, ?_⟩
  unfold Application.run
  by_cases h : (runMachine s sched).1.loc = Loc.terminated
  · right; rw [if_pos h]
  · left; rw [if_neg h]

/-- C10: for a fresh application, merely calling `run()` dispatches nothing —
with no arrival at the endpoint, every internal step is a no-op (the loop is
parked in the blocking receive), so the pre-seeded ready-to-run message stays
queued, no event occurs, and the hook cannot fire until a message arrives. -/
theorem c10_no_dispatch_before_first_arrival (sched : List EnvIn)
    (h : arrivalsOf sched = []) :
    runMachine freshApp sched = (freshApp, []) := by
  induction sched with
  | nil => rfl
  | cons i rest ih =>
    cases i with
    | arrive e => simp [arrivalsOf] at h
    | run c =>
      have h' : arrivalsOf rest = [] := by simpa using h
      have hstep : stepEv freshApp (.run c) = (freshApp, []) := rfl
      rw [runMachine_cons, hstep]
      rw [ih h']
      rfl

/-- Witness for C10: three run steps (with and without a successful depth
query) leave the fresh application unchanged with an empty trace. -/
theorem c10_no_dispatch_before_first_arrival_witness :
    runMachine freshApp [.run true, .run false, .run true] = (freshApp, []) :=
  c10_no_dispatch_before_first_arrival [.run true, .run false, .run true] rfl

lemma runN_zero (s : St) : runN s 0 = s := rfl

lemma runN_succ (s : St) (k : Nat) : runN s (k + 1) = runN (stepRun s true).1 k := by
  rw [runN, List.replicate_succ, finalOf_cons]
  rfl

/-- From the drain loop with `n` iterations left, the machine reaches the
inner dispatch loop within `n + 1` steps, passing only through drain
locations on the way (it never revisits the blocking receive). -/
lemma drainReach :
    ∀ (n : Nat) (s : St), s.loc = .drain n →
      ∃ k, 0 < k ∧ k ≤ n + 1 ∧ (runN s k).loc = .innerTop ∧
        ∀ j, 0 < j → j < k → ∃ d, (runN s j).loc = .drain d := by
  intro n
  induction n with
  | zero =>
    intro s hl
    refine ⟨1, Nat.one_pos, le_refl 1, ?_, ?_⟩
    · rw [runN_succ, runN_zero]
      simp [stepRun, hl]
    · intro j hj hj1
      omega
  | succ n ih =>
    intro s hl
    cases hp : s.port with
    | nil =>
      refine ⟨1, Nat.one_pos, by omega, ?_, ?_⟩
      · rw [runN_succ, runN_zero]
        simp [stepRun, hl, hp]
      · intro j hj hj1
        omega
    | cons e r =>
      cases hd : read_message_from_port e with
      | none =>
        refine ⟨1, Nat.one_pos, by omega, ?_, ?_⟩
        · rw [runN_succ, runN_zero]
          simp [stepRun, hl, hp, hd]
        · intro j hj hj1
          omega
      | some m =>
        have hstep : (stepRun s true).1 =
            { s with port := r, queue := s.queue ++ [m], loc := .drain n } := by
          simp [stepRun, hl, hp, hd]
        obtain ⟨k, hk0, hk, hinner, hmid⟩ :=
          ih { s with port := r, queue := s.queue ++ [m], loc := .drain n } rfl
        refine ⟨k + 1, Nat.succ_pos k, by omega, ?_, ?_⟩
        · rw [runN_succ, hstep]
          exact hinner
        · intro j hj hjk
          cases j with
          | zero => omega
          | succ j' =>
            rw [runN_succ, hstep]
            cases Nat.eq_zero_or_pos j' with
            | inl h0 => exact ⟨n, by rw [h0, runN_zero]⟩
            | inr hpos => exact hmid j' hpos (by omega)

/-- C4 (amended): at the head of an outer cycle the looper suspends in the
blocking receive exactly when the endpoint's pending depth is zero; with a
nonzero depth the receive completes at once, consuming the head envelope
without suspending.  If that head is well-formed the machine goes on —
through the drain positions only, never parking in the receive again — to a
fresh inner dispatch pass within `r.length + 3` steps; if it is malformed it
is merely discarded and the looper returns to the blocking receive (which may
then suspend with messages still in its local queue, as the counterexample
shows, even though the depth was nonzero when the inner loop ended). -/
theorem c4_reblock_only_when_depth_zero (s : St) (c : Bool) (h : s.loc = .outerTop) :
    (s.port = [] ↔ stepRun s c = (s, [])) ∧
    (∀ e r, s.port = e :: r → (stepRun s c).1.port = r ∧
      ((stepRun s c).1.loc = .preDrain ∨ (stepRun s c).1.loc = .outerTop)) ∧
    (∀ e r m, s.port = e :: r → read_message_from_port e = some m →
      ∃ k, 0 < k ∧ k ≤ r.length + 3 ∧ (runN s k).loc = .innerTop ∧
        ∀ j, 0 < j → j < k →
          (runN s j).loc = .preDrain ∨ ∃ d, (runN s j).loc = .drain d) ∧
    (∀ e r, s.port = e :: r → read_message_from_port e = none →
      stepRun s c = ({ s with port := r }, [Ev.discarded e])) := by
  refine ⟨⟨fun hp => by simp [stepRun, h, hp], fun heq => ?_⟩, ?_, ?_, ?_⟩
  · cases hp : s.port with
    | nil => rfl
    | cons e r =>
      exfalso
      cases hd : read_message_from_port e with
      | some m => simp [stepRun, h, hp, hd] at heq
      | none => simp [stepRun, h, hp, hd] at heq
  · intro e r hp
    cases hd : read_message_from_port e with
    | some m => constructor <;> simp [stepRun, h, hp, hd]
    | none =>
      constructor
      · simp [stepRun, h, hp, hd]
      · right; simp [stepRun, h, hp, hd]
  · intro e r m hp hd
    have hstep1 : (stepRun s true).1 =
        { s with port := r, queue := s.queue ++ [m], loc := .preDrain } := by
      simp [stepRun, h, hp, hd]
    have hstep2 :
        (stepRun { s with port := r, queue := s.queue ++ [m], loc := .preDrain } true).1 =
          { s with port := r, queue := s.queue ++ [m], loc := .drain r.length } := by
      simp [stepRun, drainCount]
    obtain ⟨k, hk0, hk, hinner, hmid⟩ :=
      drainReach r.length { s with port := r, queue := s.queue ++ [m], loc := .drain r.length }
        rfl
    refine ⟨k + 2, by omega, by omega, ?_, ?_⟩
    · rw [runN_succ, hstep1, runN_succ, hstep2]
      exact hinner
    · intro j hj hjk
      match j, hj with
      | 1, _ =>
        left
        rw [runN_succ, hstep1, runN_zero]
      | (j' + 2), _ =>
        right
        rw [runN_succ, hstep1, runN_succ, hstep2]
        cases Nat.eq_zero_or_pos j' with
        | inl h0 => exact ⟨r.length, by rw [h0, runN_zero]⟩
        | inr hpos => exact hmid j' hpos (by omega)
  · intro e r hp hd
    simp [stepRun, h, hp, hd]

/-- C4 counterexample: pending depth nonzero after the inner loop does not
guarantee a new inner dispatch pass.  Two well-formed messages are drained; a
malformed envelope arrives during the inner pass, whose depth check then
exits the inner loop with one message still queued locally; the outer receive
consumes and discards the malformed envelope and the looper then suspends in
the blocking receive — a fixpoint of further internal steps — with the
second message stranded in the local queue, never dispatched. -/
theorem c4_counterexample_malformed_pending_reblocks :
    finalOf ⟨[⟨Message.type_code, some (Message.new 100)⟩,
        ⟨Message.type_code, some (Message.new 101)⟩], [], false, .outerTop⟩
      [.run true, .run true, .run true, .run true, .arrive ⟨0, none⟩, .run true, .run true] =
      ⟨[], [Message.new 101], false, .outerTop⟩ ∧
    deliveredOf (traceOf ⟨[⟨Message.type_code, some (Message.new 100)⟩,
        ⟨Message.type_code, some (Message.new 101)⟩], [], false, .outerTop⟩
      [.run true, .run true, .run true, .run true, .arrive ⟨0, none⟩, .run true, .run true]) =
      [Message.new 100] ∧
    stepEv ⟨[], [Message.new 101], false, .outerTop⟩ (.run true) =
      (⟨[], [Message.new 101], false, .outerTop⟩, []) ∧
    stepEv ⟨[], [Message.new 101], false, .outerTop⟩ (.run false) =
      (⟨[], [Message.new 101], false, .outerTop⟩, []) := by
  refine ⟨by decide, by decide, rfl, rfl⟩

/-- Witness for C4: a looper parked at the receive with one well-formed
pending message does not suspend, consumes it at once, and reaches a new
inner pass. -/
theorem c4_reblock_only_when_depth_zero_witness :
    (([⟨Message.type_code, some (Message.new 100)⟩] : List Envelope) = [] ↔
      stepRun ⟨[⟨Message.type_code, some (Message.new 100)⟩], [], false, .outerTop⟩ true =
        (⟨[⟨Message.type_code, some (Message.new 100)⟩], [], false, .outerTop⟩, [])) ∧
    (∀ e r, ([⟨Message.type_code, some (Message.new 100)⟩] : List Envelope) = e :: r →
      (stepRun ⟨[⟨Message.type_code, some (Message.new 100)⟩], [], false, .outerTop⟩ true).1.port
          = r ∧
      ((stepRun ⟨[⟨Message.type_code, some (Message.new 100)⟩], [], false,
          .outerTop⟩ true).1.loc = .preDrain ∨
        (stepRun ⟨[⟨Message.type_code, some (Message.new 100)⟩], [], false,
          .outerTop⟩ true).1.loc = .outerTop)) ∧
    (∀ e r m, ([⟨Message.type_code, some (Message.new 100)⟩] : List Envelope) = e :: r →
      read_message_from_port e = some m →
      ∃ k, 0 < k ∧ k ≤ r.length + 3 ∧
        (runN ⟨[⟨Message.type_code, some (Message.new 100)⟩], [], false,
          .outerTop⟩ k).loc = .innerTop ∧
        ∀ j, 0 < j → j < k →
          (runN ⟨[⟨Message.type_code, some (Message.new 100)⟩], [], false,
            .outerTop⟩ j).loc = .preDrain ∨
          ∃ d, (runN ⟨[⟨Message.type_code, some (Message.new 100)⟩], [], false,
            .outerTop⟩ j).loc = .drain d) ∧
    (∀ e r, ([⟨Message.type_code, some (Message.new 100)⟩] : List Envelope) = e :: r →
      read_message_from_port e = none →
      stepRun ⟨[⟨Message.type_code, some (Message.new 100)⟩], [], false, .outerTop⟩ true =
        (⟨r, [], false, .outerTop⟩, [Ev.discarded e])) :=
  c4_reblock_only_when_depth_zero
    ⟨[⟨Message.type_code, some (Message.new 100)⟩], [], false, .outerTop⟩ true rfl

/-- C5 counterexample: at the post-blocking-receive drain site (`looper.rs`
line 62, `get_count().unwrap()`), a failed depth query does not behave as a
zero result — it panics the looper thread.  Concretely, a looper that has
just received one well-formed message and then fails the depth query ends up
panicked, and the failed-query outcome differs from the zero-count outcome. -/
theorem c5_counterexample_drain_site_panics :
    (stepRun ⟨[], [], false, .preDrain⟩ false).1.loc = .panicked ∧
    (stepRun ⟨[], [], false, .preDrain⟩ false).1 ≠ (stepRun ⟨[], [], false, .preDrain⟩ true).1 ∧
    (finalOf ⟨[⟨Message.type_code, some (Message.new 100)⟩], [], false, .outerTop⟩
        [.run true, .run false]).loc = .panicked := by
  refine ⟨rfl, ?_, ?_⟩ <;> decide

/-- C5 (amended): a depth-query failure is treated as "no extra messages"
only at the end-of-inner-loop check (`looper.rs` lines 104-111), where the
`Err` outcome coincides with the `Ok(0)` outcome; at the post-blocking-receive
drain site (line 62) the failure is unwrapped and panics the looper thread
instead. -/
theorem c5_amended_depth_failure_conservative_inner_only (s : St) :
    innerCountCheck s none = innerCountCheck s (some 0) ∧
    drainCount s none = { s with loc := .panicked } := by
  constructor
  · simp [innerCountCheck]
  · rfl

/-- C6: at the head of an inner-loop iteration, a popped
`B_QUIT_REQUESTED` message is absorbed with no effect (no handler invocation,
termination flag still clear, endpoint and remaining queue untouched), a
popped `QUIT` message sets the termination flag and is not delivered, and any
other message is passed to the handler exactly once, unchanged. -/
theorem c6_reserved_code_interception (s : St) (c : Bool) (m : Message) (rest : List Message)
    (hl : s.loc = .innerTop) (ht : s.terminating = false) (hq : s.queue = m :: rest) :
    ((stepRun s c).1.terminating = true ↔ m.what = QUIT) ∧
    ((∃ mm, Ev.delivered mm ∈ (stepRun s c).2) ↔
      (¬m.what = B_QUIT_REQUESTED ∧ ¬m.what = QUIT)) ∧
    (∀ mm, Ev.delivered mm ∈ (stepRun s c).2 → mm = m) ∧
    (m.what = B_QUIT_REQUESTED →
      (stepRun s c).1.port = s.port ∧ (stepRun s c).1.queue = rest ∧
      (stepRun s c).1.terminating = false ∧ (stepRun s c).2 = [Ev.popped m]) := by
  have htb : s.terminating ≠ true := by rw [ht]; simp
  by_cases h1 : m.what = B_QUIT_REQUESTED
  · have hstep : stepRun s c =
        (innerCountCheck { s with queue := rest } (if c then some s.port.length else none),
          [Ev.popped m]) := by
      simp [stepRun, hl, htb, hq, h1]
    refine ⟨?_, ?_, ?_, ?_⟩
    · rw [hstep]
      simp [innerCountCheck_terminating, ht, h1]
    · rw [hstep]
      simp [h1]
    · rw [hstep]
      simp
    · intro _
      rw [hstep]
      exact ⟨innerCountCheck_port _ _, innerCountCheck_queue _ _,
        by rw [innerCountCheck_terminating]; exact ht, rfl⟩
  · by_cases h2 : m.what = QUIT
    · have hstep : stepRun s c =
          ({ s with queue := rest, terminating := true, loc := .terminated },
            [Ev.popped m, Ev.quit]) := by
        simp [stepRun, hl, htb, hq, h1, h2]
      refine ⟨?_, ?_, ?_, fun habs => absurd habs h1⟩
      · rw [hstep]
        simp [h2]
      · rw [hstep]
        simp [h2]
      · rw [hstep]
        simp
    · have hstep : stepRun s c =
          (innerCountCheck { s with queue := rest } (if c then some s.port.length else none),
            [Ev.popped m, Ev.delivered m]) := by
        simp [stepRun, hl, htb, hq, h1, h2]
      refine ⟨?_, ?_, ?_, fun habs => absurd habs h1⟩
      · rw [hstep]
        simp [innerCountCheck_terminating, ht, h2]
      · rw [hstep]
        simp [h1, h2]
      · rw [hstep]
        simp

/-- Witness for C6: an ordinary (non-control) message at the head of the
queue is delivered to the handler and does not set the termination flag. -/
theorem c6_reserved_code_interception_witness :
    ((stepRun ⟨[], [Message.new 100], false, .innerTop⟩ true).1.terminating = true ↔
      (Message.new 100).what = QUIT) ∧
    ((∃ mm, Ev.delivered mm ∈ (stepRun ⟨[], [Message.new 100], false, .innerTop⟩ true).2) ↔
      (¬(Message.new 100).what = B_QUIT_REQUESTED ∧ ¬(Message.new 100).what = QUIT)) ∧
    (∀ mm, Ev.delivered mm ∈ (stepRun ⟨[], [Message.new 100], false, .innerTop⟩ true).2 →
      mm = Message.new 100) ∧
    ((Message.new 100).what = B_QUIT_REQUESTED →
      (stepRun ⟨[], [Message.new 100], false, .innerTop⟩ true).1.port =
        (⟨[], [Message.new 100], false, .innerTop⟩ : St).port ∧
      (stepRun ⟨[], [Message.new 100], false, .innerTop⟩ true).1.queue = [] ∧
      (stepRun ⟨[], [Message.new 100], false, .innerTop⟩ true).1.terminating = false ∧
      (stepRun ⟨[], [Message.new 100], false, .innerTop⟩ true).2 =
        [Ev.popped (Message.new 100)]) :=
  c6_reserved_code_interception ⟨[], [Message.new 100], false, .innerTop⟩ true
    (Message.new 100) [] rfl rfl rfl

/-- C7: the application's internal handler acquires the shared state's
exclusive guard before any hook runs and holds it for the whole hook call
(the guard-event trace is balanced and every hook event sits at positive
lock depth); under that guard a ready-to-run-coded message invokes the
`ready_to_run` hook and every other code the `message_received` hook. -/
theorem c7_guarded_hook_dispatch {A : Type} (hooks : AppHooks A) (st : A) (msg : Message) :
    hooksUnderGuard (ApplicationLooperState.message_received hooks st msg).2 0 = true ∧
    (msg.what = B_READY_TO_RUN →
      ApplicationLooperState.message_received hooks st msg =
        (hooks.ready_to_run st, [.acquired, .hookReadyToRun, .released])) ∧
    (¬msg.what = B_READY_TO_RUN →
      ApplicationLooperState.message_received hooks st msg =
        (hooks.message_received st msg, [.acquired, .hookMessageReceived, .released])) := by
  by_cases h : msg.what = B_READY_TO_RUN
  · have he : ApplicationLooperState.message_received hooks st msg =
        (hooks.ready_to_run st, [.acquired, .hookReadyToRun, .released]) := by
      simp [ApplicationLooperState.message_received, h]
    exact ⟨by rw [he]; rfl, fun _ => he, fun hn => absurd h hn⟩
  · have he : ApplicationLooperState.message_received hooks st msg =
        (hooks.message_received st msg, [.acquired, .hookMessageReceived, .released]) := by
      simp [ApplicationLooperState.message_received, h]
    exact ⟨by rw [he]; rfl, fun hr => absurd hr h, fun _ => he⟩

/-- Witness for C7: with concrete counter hooks, a ready-to-run message runs
the ready-to-run hook under a balanced guard trace. -/
theorem c7_guarded_hook_dispatch_witness :
    hooksUnderGuard
      (ApplicationLooperState.message_received
        (⟨fun a => (a, true), fun a => a + 1, fun a m => a + m.what⟩ : AppHooks Nat)
        5 (Message.new B_READY_TO_RUN)).2 0 = true ∧
    (ApplicationLooperState.message_received
        (⟨fun a => (a, true), fun a => a + 1, fun a m => a + m.what⟩ : AppHooks Nat)
        5 (Message.new B_READY_TO_RUN)).1 = 6 :=
  ⟨(c7_guarded_hook_dispatch _ 5 _).1,
   by rw [(c7_guarded_hook_dispatch
      (⟨fun a => (a, true), fun a => a + 1, fun a m => a + m.what⟩ : AppHooks Nat)
      5 (Message.new B_READY_TO_RUN)).2.1 rfl]⟩

/-- C8: an envelope whose type code is not the `Message` type code (or whose
bytes fail to decode) is non-fatal: the blocking-receive step reports it and
drops it, invokes no handler, and leaves the loop live at the outer receive
with the rest of the endpoint intact; concretely, a malformed envelope
followed by a well-formed one yields exactly a discard followed by the normal
dispatch of the well-formed message. -/
theorem c8_malformed_envelope_nonfatal (s : St) (c : Bool) (e : Envelope) (r : List Envelope)
    (hl : s.loc = .outerTop) (hp : s.port = e :: r)
    (hbad : read_message_from_port e = none) :
    (stepRun s c = ({ s with port := r }, [Ev.discarded e]) ∧
      (stepRun s c).1.loc = .outerTop ∧
      deliveredOf (stepRun s c).2 = []) ∧
    traceOf ⟨[⟨0, some (Message.new 9)⟩, ⟨Message.type_code, some (Message.new 5)⟩],
        [], false, .outerTop⟩ (List.replicate 6 (.run true)) =
      [Ev.discarded ⟨0, some (Message.new 9)⟩, Ev.read (Message.new 5),
        Ev.popped (Message.new 5), Ev.delivered (Message.new 5)] := by
  have hstep : stepRun s c = ({ s with port := r }, [Ev.discarded e]) := by
    simp [stepRun, hl, hp, hbad]
  refine ⟨⟨hstep, ?_, by rw [hstep]; rfl⟩, by decide⟩
  rw [hstep]
  exact hl

/-- Witness for C8: a wrong-typed envelope at the head of the port is
discarded and the loop stays at the blocking receive. -/
theorem c8_malformed_envelope_nonfatal_witness :
    ((stepRun ⟨[⟨0, none⟩], [], false, .outerTop⟩ true =
        (⟨[], [], false, .outerTop⟩, [Ev.discarded ⟨0, none⟩]) ∧
      (stepRun ⟨[⟨0, none⟩], [], false, .outerTop⟩ true).1.loc = .outerTop ∧
      deliveredOf (stepRun ⟨[⟨0, none⟩], [], false, .outerTop⟩ true).2 = []) ∧
    traceOf ⟨[⟨0, some (Message.new 9)⟩, ⟨Message.type_code, some (Message.new 5)⟩],
        [], false, .outerTop⟩ (List.replicate 6 (.run true)) =
      [Ev.discarded ⟨0, some (Message.new 9)⟩, Ev.read (Message.new 5),
        Ev.popped (Message.new 5), Ev.delivered (Message.new 5)]) :=
  c8_malformed_envelope_nonfatal ⟨[⟨0, none⟩], [], false, .outerTop⟩ true ⟨0, none⟩ []
    rfl rfl (by decide)

/-- C2 counterexample: "the ready-to-run hook fires exactly once" fails in
both directions.  With zero messages enqueued before `run()` and none
arriving after, every internal step (with or without a successful depth
query) is a no-op on the fresh state, the trace stays empty and the hook
fires zero times; and when one externally sent message itself carries the
ready-to-run code, two ready-to-run-coded messages are delivered, so the
hook fires twice. -/
theorem c2_counterexample_hook_not_exactly_once :
    (runMachine freshApp [.run true, .run false, .run true, .run true] = (freshApp, []) ∧
      stepEv freshApp (.run true) = (freshApp, []) ∧
      stepEv freshApp (.run false) = (freshApp, []) ∧
      deliveredOf (traceOf freshApp [.run true, .run false, .run true, .run true]) = []) ∧
    (deliveredOf (traceOf freshApp
        [.arrive ⟨Message.type_code, some ⟨B_READY_TO_RUN, 1⟩⟩, .run true, .run true,
          .run true, .run true, .run true, .run true])).countP
      (fun m => m.what == B_READY_TO_RUN) = 2 := by
  refine ⟨⟨rfl, rfl, rfl, rfl⟩, by decide⟩

/-- C2 (amended): for a fresh application, whenever any message is delivered
at all, the very first message delivered is the pre-seeded ready-to-run
notification — strictly before any externally sent message reaches a hook —
unconditionally; and provided no externally sent message itself carries the
ready-to-run code, the ready-to-run hook fires exactly once whenever any
delivery happens (and zero times otherwise, as when no message ever
arrives). -/
theorem c2_amended_ready_to_run_first (sched : List EnvIn) :
    (deliveredOf (traceOf freshApp sched) = [] ∨
      ∃ t, deliveredOf (traceOf freshApp sched) = Message.new B_READY_TO_RUN :: t) ∧
    ((∀ m ∈ decodedEnvs (arrivalsOf sched), ¬m.what = B_READY_TO_RUN) →
      deliveredOf (traceOf freshApp sched) = [] ∨
      (deliveredOf (traceOf freshApp sched)).countP
        (fun m => m.what == B_READY_TO_RUN) = 1) := by
  have hfilter := delivered_eq_filter_popped sched freshApp
  have hpre := popped_follows_stream freshApp sched
  cases hp : poppedOf (traceOf freshApp sched) with
  | nil =>
    constructor
    · left
      rw [hfilter, hp, List.filter_nil]
    · intro _
      left
      rw [hfilter, hp, List.filter_nil]
  | cons m0 p' =>
    rw [hp] at hpre
    obtain ⟨t, ht⟩ := hpre
    have ht' : m0 :: (p' ++ t) =
        Message.new B_READY_TO_RUN :: decodedEnvs (arrivalsOf sched) := by
      simpa [freshApp] using ht
    injection ht' with hm0 htail
    have hrtr : (!isControl (Message.new B_READY_TO_RUN)) = true := by decide
    have hdel : deliveredOf (traceOf freshApp sched) =
        Message.new B_READY_TO_RUN :: p'.filter (fun m => !isControl m) := by
      rw [hfilter, hp, hm0, List.filter_cons]
      simp [hrtr]
    constructor
    · right
      exact ⟨p'.filter (fun m => !isControl m), hdel⟩
    · intro h
      right
      have hsub : List.Sublist p' (decodedEnvs (arrivalsOf sched)) := by
        rw [← htail]
        exact List.sublist_append_left p' t
      have hcount0 :
          (decodedEnvs (arrivalsOf sched)).countP (fun m => m.what == B_READY_TO_RUN) = 0 := by
        rw [List.countP_eq_zero]
        intro a ha
        simpa using h a ha
      have hcp' : p'.countP (fun m => m.what == B_READY_TO_RUN) = 0 :=
        Nat.le_zero.mp (hcount0 ▸ hsub.countP_le _)
      have hcf : (p'.filter (fun m => !isControl m)).countP
          (fun m => m.what == B_READY_TO_RUN) = 0 :=
        Nat.le_zero.mp (hcp' ▸ (List.filter_sublist p').countP_le _)
      rw [hdel, List.countP_cons, hcf]
      decide

/-- Witness for C2 (amended): one well-formed external message with an
ordinary code arrives; the ready-to-run notification is delivered first and
the hook fires exactly once. -/
theorem c2_amended_ready_to_run_first_witness :
    (deliveredOf (traceOf freshApp
        [.arrive ⟨Message.type_code, some (Message.new 100)⟩, .run true, .run true, .run true,
          .run true, .run true, .run true]) = [] ∨
      ∃ t, deliveredOf (traceOf freshApp
        [.arrive ⟨Message.type_code, some (Message.new 100)⟩, .run true, .run true, .run true,
          .run true, .run true, .run true]) = Message.new B_READY_TO_RUN :: t) ∧
    (deliveredOf (traceOf freshApp
        [.arrive ⟨Message.type_code, some (Message.new 100)⟩, .run true, .run true, .run true,
          .run true, .run true, .run true]) = [] ∨
      (deliveredOf (traceOf freshApp
        [.arrive ⟨Message.type_code, some (Message.new 100)⟩, .run true, .run true, .run true,
          .run true, .run true, .run true])).countP
        (fun m => m.what == B_READY_TO_RUN) = 1) :=
  ⟨(c2_amended_ready_to_run_first _).1,
   (c2_amended_ready_to_run_first
      [.arrive ⟨Message.type_code, some (Message.new 100)⟩, .run true, .run true, .run true,
        .run true, .run true, .run true]).2 (by decide)⟩

end Haiku
